import Mathlib

/-!
Shallow embedding of the APWRLINK / APWRHUB voltage-drop calculator.

The embedding covers the computational core of the repository:
the resistance / current helpers, the per-link propagation loop, the
rounded result records, the per-link and overall constraint evaluation,
and the topology builder of `src/main2.py`, together with the calculation
loop of the earlier variant `src/main.py`.  Real arithmetic is modelled
exactly with rationals, and Python `round` with round-half-to-even.
-/

/-- Python `round` to an integer: round half to even. -/
def roundHalfEven (x : ℚ) : ℤ :=
  let f := ⌊x⌋
  if x - f < 1 / 2 then f
  else if 1 / 2 < x - f then f + 1
  else if f % 2 = 0 then f else f + 1

/-- Python `round(x, nd)`: round to `nd` decimal places, half to even. -/
def round_to (nd : ℕ) (x : ℚ) : ℚ :=
  (roundHalfEven (x * 10 ^ nd) : ℚ) / 10 ^ nd

-- Technical constants of src/main2.py (lines 20-28).
def COPPER_RESISTIVITY : ℚ := 0.0175

def ANODES_PER_HUB : ℕ := 8

def LINK_VOLTAGE : ℚ := 48

def DEFAULT_MIN_VOLTAGE : ℚ := 36

def DEFAULT_MAX_LINK_CURRENT : ℚ := 10

/-- One entry of `hub_data` (src/main2.py lines 514-519): the aggregated
hub current in mA and the distance from the previous unit in m. -/
structure Hub where
  current_mA : ℚ
  distance : ℚ
deriving DecidableEq

/-- Function `calculate_resistance` (src/main2.py line 239). -/
def calculate_resistance (length_m area_mm2 : ℚ) : ℚ :=
  COPPER_RESISTIVITY * length_m / area_mm2

/-- Function `calculate_current` (src/main2.py line 242): sum of the currents of the
hubs from `start_index` to the end of the link, converted to A. -/
def calculate_current (hub_list : List Hub) (start_index : ℕ) : ℚ :=
  (((hub_list.drop start_index).map Hub.current_mA).sum) / 1000

/-- The raw (unrounded) quantities computed for one segment of a link
by the loop in src/main2.py lines 549-621. -/
structure RawSeg where
  fromLink : Bool
  distance : ℚ
  resistance : ℚ
  current : ℚ
  drop_mV : ℚ
  cum_mV : ℚ
  remaining : ℚ
  percent : ℚ
deriving DecidableEq

/-- Hub-to-hub segments (src/main2.py lines 590-621).  The list argument is
the suffix `hubs[i:]` of the hub list of the link, so `calculate_current` of it
at index 0 equals `calculate_current hubs i` in the source. -/
def segLoopAux (area refV : ℚ) : List Hub → ℚ → List RawSeg
  | [], _ => []
  | h :: rest, cum =>
    let L := h.distance
    let I_A := calculate_current (h :: rest) 0
    let R := calculate_resistance L area
    let U_drop_mV := I_A * R * 1000
    let cum2 := cum + U_drop_mV
    { fromLink := false, distance := L, resistance := R, current := I_A,
      drop_mV := U_drop_mV, cum_mV := cum2,
      remaining := LINK_VOLTAGE - cum2 / 1000,
      percent := cum2 / (refV * 1000) * 100 } :: segLoopAux area refV rest cum2

/-- Per-link propagation (src/main2.py lines 549-621): segment 0 from the
APWRLINK to the first hub, then the hub-to-hub segments. -/
def linkSegments (hubs : List Hub) (inputLen area refV : ℚ) : List RawSeg :=
  match hubs with
  | [] => []
  | h :: rest =>
    let I_A := calculate_current (h :: rest) 0
    let R := calculate_resistance inputLen area
    let U_drop_mV := I_A * R * 1000
    let cum := 0 + U_drop_mV
    { fromLink := true, distance := inputLen, resistance := R, current := I_A,
      drop_mV := U_drop_mV, cum_mV := cum,
      remaining := LINK_VOLTAGE - cum / 1000,
      percent := cum / (refV * 1000) * 100 } :: segLoopAux area refV rest cum

/-- Record `result_row` (src/main2.py lines 568-579 and 602-613): the emitted
record, with the fields rounded exactly as in the source. -/
structure Row where
  fromLink : Bool
  distance : ℚ
  resistance : ℚ
  current : ℚ
  drop_mV : ℚ
  cum_mV : ℚ
  remaining : ℚ
  percent : ℚ
deriving DecidableEq

def toRow (s : RawSeg) : Row :=
  { fromLink := s.fromLink, distance := s.distance,
    resistance := round_to 4 s.resistance, current := round_to 3 s.current,
    drop_mV := round_to 2 s.drop_mV, cum_mV := round_to 2 s.cum_mV,
    remaining := round_to 2 s.remaining, percent := round_to 2 s.percent }

/-- The result records of one link, src/main2.py lines 549-621. -/
def linkRows (hubs : List Hub) (inputLen area refV : ℚ) : List Row :=
  (linkSegments hubs inputLen area refV).map toRow

/-- Per-link / overall status of the constraint evaluator
(src/main2.py lines 713-723 and 777-793). -/
inductive Status where
  | OK
  | VIOLATION
deriving DecidableEq

/-- Python `min` over a list (the source only applies it to nonempty lists;
on `[]` we return the junk value 0). -/
def listMin : List ℚ → ℚ
  | [] => 0
  | x :: xs => xs.foldl min x

/-- Value `link_current` (src/main2.py line 706): the `Current [A]` field of the
first record whose `From` node is the APWRLINK itself, defaulting to 0. -/
def link_current (rows : List Row) : ℚ :=
  ((rows.find? fun r => r.fromLink).map fun r => r.current).getD 0

/-- Value `link_min_voltage` (src/main2.py line 707): minimum of the
`Remaining Voltage [V]` record fields of the link. -/
def link_min_voltage (rows : List Row) : ℚ :=
  listMin (rows.map fun r => r.remaining)

/-- Per-link status (src/main2.py lines 713-723): green unless the minimum
remaining record voltage is below the minimum working voltage or the link
current exceeds the maximum APWRLINK current. -/
def link_status (rows : List Row) (minV maxI : ℚ) : Status :=
  let s1 := if link_min_voltage rows < minV then Status.VIOLATION else Status.OK
  if link_current rows > maxI then Status.VIOLATION else s1

/-- Overall status (src/main2.py lines 769-793): green unless the minimum
remaining voltage over all records of all links is below the minimum, or
the current of some link exceeds the maximum. -/
def overall_status (tables : List (List Row)) (minV maxI : ℚ) : Status :=
  let s1 :=
    if listMin ((tables.flatten).map fun r => r.remaining) < minV then
      Status.VIOLATION
    else Status.OK
  if tables.any (fun t => decide (link_current t > maxI)) then Status.VIOLATION
  else s1

/-- Value `num_hubs` (src/main2.py line 433): `math.ceil(total / ANODES_PER_HUB)`,
written as ceiling division on naturals. -/
def num_hubs (total_anodes : ℕ) : ℕ :=
  (total_anodes + ANODES_PER_HUB - 1) / ANODES_PER_HUB

/-- The anode-distribution loop (src/main2.py lines 479-521): each hub takes
`anodes_here = min(ANODES_PER_HUB, remaining_anodes)` and the remainder
moves on; the first argument counts the hubs still to fill. -/
def anodeLoop : ℕ → ℕ → List ℕ
  | 0, _ => []
  | k + 1, remaining =>
    let here := min ANODES_PER_HUB remaining
    here :: anodeLoop k (remaining - here)

/-- Anodes per hub for a given total (src/main2.py lines 479-521). -/
def anode_counts (total_anodes : ℕ) : List ℕ :=
  anodeLoop (num_hubs total_anodes) total_anodes

/-- The `link_assignments` loop (src/main2.py lines 468-474): the link
counter starts at 1 and is incremented at every declared start index other
than 0; arguments: hubs still to assign, current hub index, current link. -/
def assignLoop (starts : List ℕ) : ℕ → ℕ → ℕ → List ℕ
  | 0, _, _ => []
  | k + 1, i, cur =>
    let cur2 := if i ∈ starts ∧ i ≠ 0 then cur + 1 else cur
    cur2 :: assignLoop starts k (i + 1) cur2

def link_assignments (n : ℕ) (starts : List ℕ) : List ℕ :=
  assignLoop starts n 0 1

/-- Validation failure of the topology builder (src/main2.py lines 464-466):
`APWRHUB 1` (hub index 0) must be among the declared link starts. -/
inductive ValidationError where
  | firstHubMissing
deriving DecidableEq

/-- The validated inputs of one computation pass (src/main2.py
lines 426-431, 459-463, 485-491, 534-541). -/
structure SystemConfig where
  totalAnodes : ℕ
  currentPerAnode : ℚ
  cableArea : ℚ
  referenceVoltage : ℚ
  minVoltage : ℚ
  maxLinkCurrent : ℚ
  linkStarts : List ℕ
  hubDistance : ℕ → ℚ
  linkInputLength : ℕ → ℚ

/-- List `hub_data` (src/main2.py lines 478-521) in the default (non-manual)
configuration: hub `i` aggregates `anodes_here * current_per_anode` mA. -/
def hubsOfConfig (cfg : SystemConfig) : List Hub :=
  (List.range (num_hubs cfg.totalAnodes)).map fun i =>
    { current_mA := cfg.currentPerAnode * ((anode_counts cfg.totalAnodes).getD i 0),
      distance := cfg.hubDistance i }

/-- Dict `link_groups` (src/main2.py lines 525-532): hubs grouped by assigned
link id.  The assignment list is non-decreasing from 1 in steps of at most
one, so iterating the ids `1 .. last` in order reproduces the insertion
order of the dict in the source. -/
def link_groups_of (hubs : List Hub) (assignments : List ℕ) :
    List (ℕ × List Hub) :=
  let pairs := hubs.zip assignments
  (List.range (assignments.getLastD 0)).map fun k =>
    (k + 1, (pairs.filter fun p => decide (p.2 = k + 1)).map Prod.fst)

/-- The full computation pass (src/main2.py lines 459-466 and 543-621):
all-or-nothing validation, then per-link propagation.  `st.stop()` at the
validation error is modelled as returning `Except.error` with no records. -/
def computeSystem (cfg : SystemConfig) : Except ValidationError (List (List Row)) :=
  if 0 ∈ cfg.linkStarts then
    let hubs := hubsOfConfig cfg
    let groups :=
      link_groups_of hubs (link_assignments (num_hubs cfg.totalAnodes) cfg.linkStarts)
    Except.ok (groups.map fun g =>
      linkRows g.2 (cfg.linkInputLength g.1) cfg.cableArea cfg.referenceVoltage)
  else Except.error ValidationError.firstHubMissing

-- Constants of the earlier variant src/main.py (lines 24 and 73).
def leitfaehigkeit_kupfer : ℚ := 56

def max_erlaubter_spannungsabfall : ℚ := 2

/-- One row of the table built by src/main.py lines 90-94. -/
structure MRow where
  strom_A : ℚ
  leitungswiderstand : ℚ
  spannungsabfall : ℚ
  spannung_kumuliert : ℚ
  spannungsabfall_mV : ℚ
  spannungsabfall_prozent : ℚ
deriving DecidableEq

/-- The calculation loop of src/main.py lines 75-94.  The list holds the
pairs `(hub_stroeme[i], hub_distanzen[i])`; the two rational accumulators
are `cumulative_current` (mA) and `cumulative_voltage` (V); the Bool flag
marks the `i == 0` iteration. -/
def mainLoop (querschnitt : ℚ) : List (ℚ × ℚ) → ℚ → ℚ → Bool → List MRow
  | [], _, _, _ => []
  | (strom_mA, laenge) :: rest, cumC, cumV, first =>
    let strom_A := (cumC + strom_mA) / 1000
    let R := if first then 0 else 2 * laenge / (leitfaehigkeit_kupfer * querschnitt)
    let drop := if first then 0 else R * strom_A
    let cumV2 := cumV + drop
    { strom_A := strom_A, leitungswiderstand := R, spannungsabfall := drop,
      spannung_kumuliert := cumV2, spannungsabfall_mV := cumV2 * 1000,
      spannungsabfall_prozent := cumV2 / max_erlaubter_spannungsabfall * 100 } ::
      mainLoop querschnitt rest (cumC + strom_mA) cumV2 false

/-- The rows computed by src/main.py for given hub currents (mA),
distances (m) and cable cross-section (mm²). -/
def mainPyRows (hub_stroeme hub_distanzen : List ℚ) (querschnitt : ℚ) : List MRow :=
  mainLoop querschnitt (hub_stroeme.zip hub_distanzen) 0 0 true

/-- A concrete configuration whose declared link starts do not contain
hub index 0 (the default inputs of src/main2.py otherwise). -/
def cfg_missing_first : SystemConfig :=
  { totalAnodes := 24, currentPerAnode := 625, cableArea := 4,
    referenceVoltage := 48, minVoltage := 36, maxLinkCurrent := 10,
    linkStarts := [1], hubDistance := fun _ => 10,
    linkInputLength := fun _ => 10 }

/-- The same concrete configuration with hub index 0 declared as a start. -/
def cfg_valid : SystemConfig :=
  { totalAnodes := 24, currentPerAnode := 625, cableArea := 4,
    referenceVoltage := 48, minVoltage := 36, maxLinkCurrent := 10,
    linkStarts := [0], hubDistance := fun _ => 10,
    linkInputLength := fun _ => 10 }

/-- A concrete result record used to instantiate the status theorems. -/
def sample_row : Row :=
  { fromLink := true, distance := 10, resistance := 1, current := 5,
    drop_mV := 200, cum_mV := 200, remaining := 47, percent := 1 }

/-! ### Helper lemmas -/

lemma calculate_current_cons_succ (h : Hub) (t : List Hub) (j : ℕ) :
    calculate_current (h :: t) (j + 1) = calculate_current t j := by
  simp [calculate_current, List.drop_succ_cons]

lemma segLoopAux_getElem_current (area refV : ℚ) :
    ∀ (rest : List Hub) (cum : ℚ) (j : ℕ), j < rest.length →
      ((segLoopAux area refV rest cum)[j]?).map RawSeg.current =
        some (calculate_current rest j) := by
  intro rest
  induction rest with
  | nil => intro cum j hj; simp at hj
  | cons h t ih =>
    intro cum j hj
    cases j with
    | zero => simp [segLoopAux]
    | succ j =>
      have hj2 : j < t.length := by simpa using hj
      simp only [segLoopAux, List.getElem?_cons_succ]
      rw [ih _ j hj2, calculate_current_cons_succ]

/-- Every segment record of src/main2.py carries the downstream-inclusive
current: record `j` of the segment list of a link holds
`calculate_current hubs j`, the sum of the currents of hubs `j..end`. -/
theorem mainTwo_current_downstream (hubs : List Hub) (L area refV : ℚ)
    (j : ℕ) (hj : j < hubs.length) :
    ((linkSegments hubs L area refV)[j]?).map RawSeg.current =
      some ((((hubs.drop j).map Hub.current_mA).sum) / 1000) := by
  cases hubs with
  | nil => simp at hj
  | cons h t =>
    cases j with
    | zero => simp [linkSegments, calculate_current]
    | succ j =>
      have hj2 : j < t.length := by simpa using hj
      simp only [linkSegments, List.getElem?_cons_succ]
      rw [segLoopAux_getElem_current _ _ _ _ j hj2]
      rw [show calculate_current t j = calculate_current (h :: t) (j + 1) from
        (calculate_current_cons_succ h t j).symm]
      rfl

lemma suffix_sum_le (l : List ℚ) (hpos : ∀ x ∈ l, 0 ≤ x) (j : ℕ) :
    (l.drop (j + 1)).sum ≤ (l.drop j).sum := by
  induction l generalizing j with
  | nil => simp
  | cons x t ih =>
    cases j with
    | zero =>
      have hx : 0 ≤ x := hpos x (List.mem_cons_self _ _)
      simp only [List.drop_succ_cons, List.drop_zero, List.sum_cons]
      linarith
    | succ j =>
      simp only [List.drop_succ_cons]
      exact ih (fun y hy => hpos y (List.mem_cons_of_mem _ hy)) j

/-- With non-negative per-hub currents the downstream current of
src/main2.py is non-increasing in the segment index. -/
theorem mainTwo_current_antitone (hubs : List Hub)
    (hpos : ∀ h ∈ hubs, 0 ≤ h.current_mA) (j : ℕ) :
    calculate_current hubs (j + 1) ≤ calculate_current hubs j := by
  unfold calculate_current
  have hmap : ∀ x ∈ hubs.map Hub.current_mA, 0 ≤ x := by
    intro x hx
    obtain ⟨h, hh, rfl⟩ := List.mem_map.mp hx
    exact hpos h hh
  have := suffix_sum_le (hubs.map Hub.current_mA) hmap j
  rw [List.map_drop, List.map_drop]
  exact (div_le_div_iff_of_pos_right (by norm_num)).mpr this

/-- For a positive source distance, positive cable area and positive link
current, src/main2.py computes a positive segment-0 drop. -/
theorem mainTwo_seg0_drop_pos (h : Hub) (t : List Hub) (L area refV : ℚ)
    (hL : 0 < L) (hA : 0 < area) (hI : 0 < calculate_current (h :: t) 0) :
    ∃ s rest, linkSegments (h :: t) L area refV = s :: rest ∧ 0 < s.drop_mV := by
  refine ⟨_, _, rfl, ?_⟩
  show 0 < calculate_current (h :: t) 0 * calculate_resistance L area * 1000
  have hR : 0 < calculate_resistance L area := by
    unfold calculate_resistance COPPER_RESISTIVITY
    positivity
  positivity

/-! ### Claim theorems on concrete inputs -/

/-- C1 (failing input, src/main.py): with two hubs of 1000 mA and 2000 mA,
main.py assigns segment 0 the current 1 A (first hub only) and segment 1
the current 3 A (upstream-inclusive running sum), while the downstream
sums required by the claim — `calculate_current` of src/main2.py — are
3 A for segment 0 and 2 A for segment 1. -/
theorem mainpy_segment_current_at_failing_input :
    ((mainPyRows [1000, 2000] [10, 10] 4).map MRow.strom_A = [1, 3]) ∧
    calculate_current [⟨1000, 10⟩, ⟨2000, 10⟩] 0 = 3 ∧
    calculate_current [⟨1000, 10⟩, ⟨2000, 10⟩] 1 = 2 ∧
    (mainPyRows [1000, 2000] [10, 10] 4).map MRow.strom_A ≠
      [calculate_current [⟨1000, 10⟩, ⟨2000, 10⟩] 0,
        calculate_current [⟨1000, 10⟩, ⟨2000, 10⟩] 1] := by
  norm_num [mainPyRows, mainLoop, calculate_current]

/-- C2 (failing input, src/main.py): the `i == 0` branch of main.py forces
resistance and drop of the source segment to zero although the configured
source distance is 10 m and the current is 1 A; its own resistance model
would give a non-zero drop there, and src/main2.py does compute a non-zero
segment-0 drop (43.75 mV) at the same input. -/
theorem mainpy_segment_zero_drop_at_failing_input :
    ((mainPyRows [1000] [10] 4).map fun r =>
        (r.leitungswiderstand, r.spannungsabfall)) = [(0, 0)] ∧
    2 * 10 / (leitfaehigkeit_kupfer * 4) * 1 ≠ (0 : ℚ) ∧
    ((linkSegments [⟨1000, 10⟩] 10 4 48).map RawSeg.drop_mV = [43.75]) ∧
    (43.75 : ℚ) ≠ 0 := by
  norm_num [mainPyRows, mainLoop, leitfaehigkeit_kupfer, linkSegments,
    segLoopAux, calculate_current, calculate_resistance, COPPER_RESISTIVITY]

/-- C3 (failing input, src/main.py): with the non-negative hub currents
1000 mA and 2000 mA, the segment currents computed by main.py are
1 A and then 3 A — strictly increasing while walking away from the
source, violating the claimed monotone non-increase. -/
theorem mainpy_currents_increase_at_failing_input :
    (0 : ℚ) ≤ 1000 ∧ (0 : ℚ) ≤ 2000 ∧
    ((mainPyRows [1000, 2000] [10, 10] 4).map MRow.strom_A = [1, 3]) ∧
    (1 : ℚ) < 3 := by
  norm_num [mainPyRows, mainLoop]

/-- C9: one link with one hub, source distance 10 m, area 4 mm²,
current 8 × 625 mA = 5 A: resistance 0.04375 Ω, drop 218.75 mV
(= 0.21875 V), remaining voltage 48 − 0.21875 = 47.78125 V. -/
theorem single_hub_reference_case :
    ((linkSegments [⟨8 * 625, 0⟩] 10 4 48).map fun s =>
        (s.resistance, s.current, s.drop_mV, s.remaining)) =
      [((0.04375 : ℚ), 5, 218.75, 47.78125)] ∧
    (218.75 : ℚ) = 0.21875 * 1000 ∧ (47.78125 : ℚ) = 48 - 0.21875 := by
  norm_num [linkSegments, segLoopAux, calculate_current, calculate_resistance,
    COPPER_RESISTIVITY, LINK_VOLTAGE]

/-- C10: the evaluator compares rounded record fields.  One hub of 5 A,
source distance 240.04 m, area 1.75 mm²: the true remaining voltage is
35.998 V, strictly below the configured minimum 36 V by less than 0.005 V,
but the record rounds it to 36.00 V (and the current to 3 decimals), so
the link status is OK instead of VIOLATION. -/
theorem rounded_fields_mask_small_violations :
    ((linkSegments [⟨5000, 0⟩] 240.04 1.75 48).map RawSeg.remaining = [35.998]) ∧
    (35.998 : ℚ) < DEFAULT_MIN_VOLTAGE ∧
    DEFAULT_MIN_VOLTAGE - 35.998 < 0.005 ∧
    ((linkRows [⟨5000, 0⟩] 240.04 1.75 48).map fun r => (r.remaining, r.current)) =
      [(36, 5)] ∧
    round_to 2 (35.998 : ℚ) = 36 ∧ round_to 3 (5 : ℚ) = 5 ∧
    link_status (linkRows [⟨5000, 0⟩] 240.04 1.75 48) DEFAULT_MIN_VOLTAGE
        DEFAULT_MAX_LINK_CURRENT = Status.OK := by
  norm_num [linkSegments, segLoopAux, calculate_current, calculate_resistance,
    COPPER_RESISTIVITY, LINK_VOLTAGE, linkRows, toRow, round_to, roundHalfEven,
    DEFAULT_MIN_VOLTAGE, DEFAULT_MAX_LINK_CURRENT, link_status, link_current,
    link_min_voltage, listMin, List.find?]

/-! ### Validation (C7) -/

/-- C7: if hub index 0 is not among the declared link starts, the
computation stops with the validation error before any propagation and
produces no segment records at all. -/
theorem missing_first_link_start_rejected :
    ∀ cfg : SystemConfig, 0 ∉ cfg.linkStarts →
      computeSystem cfg = Except.error ValidationError.firstHubMissing := by
  intro cfg h
  unfold computeSystem
  rw [if_neg h]

theorem missing_first_link_start_rejected_witness :
    computeSystem cfg_missing_first = Except.error ValidationError.firstHubMissing :=
  missing_first_link_start_rejected cfg_missing_first (by decide)

/-! ### Percentage normalization (C8) -/

lemma segLoopAux_percent (area refV : ℚ) :
    ∀ (rest : List Hub) (cum : ℚ),
      (segLoopAux area refV rest cum).map RawSeg.percent =
        (segLoopAux area refV rest cum).map fun s =>
          s.cum_mV / (refV * 1000) * 100 := by
  intro rest
  induction rest with
  | nil => intro cum; rfl
  | cons h t ih => intro cum; simp only [segLoopAux, List.map_cons, ih]

lemma mainLoop_prozent (q : ℚ) :
    ∀ (ps : List (ℚ × ℚ)) (cumC cumV : ℚ) (first : Bool),
      (mainLoop q ps cumC cumV first).map MRow.spannungsabfall_prozent =
        (mainLoop q ps cumC cumV first).map fun r =>
          r.spannung_kumuliert / max_erlaubter_spannungsabfall * 100 := by
  intro ps
  induction ps with
  | nil => intro cumC cumV first; rfl
  | cons p t ih =>
    intro cumC cumV first
    obtain ⟨s, d⟩ := p
    simp only [mainLoop, List.map_cons, ih]

/-- C8: for every segment the percent field equals the cumulative drop
(in mV) divided by the reference voltage converted to mV, times 100 —
equivalently, the drop converted to V divided by the reference voltage in
V, times 100; the emitted record carries that value rounded to 2 decimal
places.  The earlier variant src/main.py likewise divides the cumulative
drop in V by its 2 V reference (same unit), times 100. -/
theorem percent_drop_normalized :
    ∀ (hubs : List Hub) (inputLen area refV : ℚ),
      ((linkSegments hubs inputLen area refV).map RawSeg.percent =
          (linkSegments hubs inputLen area refV).map fun s =>
            s.cum_mV / (refV * 1000) * 100) ∧
      ((linkSegments hubs inputLen area refV).map RawSeg.percent =
          (linkSegments hubs inputLen area refV).map fun s =>
            s.cum_mV / 1000 / refV * 100) ∧
      ((linkRows hubs inputLen area refV).map Row.percent =
          (linkSegments hubs inputLen area refV).map fun s =>
            round_to 2 s.percent) ∧
      ∀ (stroeme dists : List ℚ) (q : ℚ),
        (mainPyRows stroeme dists q).map MRow.spannungsabfall_prozent =
          (mainPyRows stroeme dists q).map fun r =>
            r.spannung_kumuliert / max_erlaubter_spannungsabfall * 100 := by
  intro hubs inputLen area refV
  have hmain :
      (linkSegments hubs inputLen area refV).map RawSeg.percent =
        (linkSegments hubs inputLen area refV).map fun s =>
          s.cum_mV / (refV * 1000) * 100 := by
    cases hubs with
    | nil => rfl
    | cons h t => simp only [linkSegments, List.map_cons, segLoopAux_percent]
  refine ⟨hmain, ?_, ?_, fun stroeme dists q => mainLoop_prozent q _ _ _ _⟩
  · rw [hmain]
    apply List.map_congr_left
    intro s _
    rw [div_div, mul_comm refV 1000]
  · rw [linkRows, List.map_map]
    rfl

/-! ### Constraint evaluator (C4, C5) -/

lemma link_status_eq_violation_iff (rows : List Row) (minV maxI : ℚ) :
    link_status rows minV maxI = Status.VIOLATION ↔
      link_min_voltage rows < minV ∨ link_current rows > maxI := by
  unfold link_status
  by_cases h1 : link_min_voltage rows < minV <;>
    by_cases h2 : link_current rows > maxI <;> simp [h1, h2]

lemma link_current_cons_of_fromLink (r : Row) (rs : List Row)
    (hr : r.fromLink = true) : link_current (r :: rs) = r.current := by
  unfold link_current
  rw [List.find?_cons_of_pos _ (by simp [hr])]
  rfl

/-- C4: for every link, the status is VIOLATION exactly when the minimum
remaining voltage over the records of the link is strictly below the minimum
working voltage or the current of the segment-0 record is strictly above the
maximum link current; a breach is a returned result state — a valid
configuration always yields `Except.ok`, never an error. -/
theorem link_status_violation_iff :
    (∀ (h : Hub) (t : List Hub) (L area refV minV maxI : ℚ),
      (link_status (linkRows (h :: t) L area refV) minV maxI = Status.VIOLATION ↔
        link_min_voltage (linkRows (h :: t) L area refV) < minV ∨
          ((linkRows (h :: t) L area refV).head?.map fun r => r.current).getD 0 >
            maxI)) ∧
    ∀ cfg : SystemConfig, 0 ∈ cfg.linkStarts →
      ∃ tables, computeSystem cfg = Except.ok tables := by
  constructor
  · intro h t L area refV minV maxI
    obtain ⟨r, rs, hEq, hFrom⟩ :
        ∃ r rs, linkRows (h :: t) L area refV = r :: rs ∧ r.fromLink = true :=
      ⟨_, _, rfl, rfl⟩
    rw [hEq, link_status_eq_violation_iff, link_current_cons_of_fromLink r rs hFrom]
    simp
  · intro cfg hmem
    refine ⟨(link_groups_of (hubsOfConfig cfg)
        (link_assignments (num_hubs cfg.totalAnodes) cfg.linkStarts)).map fun g =>
          linkRows g.2 (cfg.linkInputLength g.1) cfg.cableArea cfg.referenceVoltage, ?_⟩
    unfold computeSystem
    rw [if_pos hmem]

theorem link_status_violation_iff_witness :
    (link_status (linkRows [⟨5000, 10⟩] 10 4 48) 36 10 = Status.VIOLATION ↔
      link_min_voltage (linkRows [⟨5000, 10⟩] 10 4 48) < 36 ∨
        ((linkRows [⟨5000, 10⟩] 10 4 48).head?.map fun r => r.current).getD 0 > 10) ∧
    ∃ tables, computeSystem cfg_valid = Except.ok tables :=
  ⟨link_status_violation_iff.1 ⟨5000, 10⟩ [] 10 4 48 36 10,
    link_status_violation_iff.2 cfg_valid (by decide)⟩

lemma foldl_min_lt_iff (c : ℚ) :
    ∀ (l : List ℚ) (a : ℚ), l.foldl min a < c ↔ a < c ∨ ∃ x ∈ l, x < c := by
  intro l
  induction l with
  | nil => intro a; simp
  | cons y t ih =>
    intro a
    rw [List.foldl_cons, ih (min a y), min_lt_iff]
    simp only [List.mem_cons]
    constructor
    · rintro ((h | h) | ⟨x, hx, hxc⟩)
      · exact Or.inl h
      · exact Or.inr ⟨y, Or.inl rfl, h⟩
      · exact Or.inr ⟨x, Or.inr hx, hxc⟩
    · rintro (h | ⟨x, (rfl | hx), hxc⟩)
      · exact Or.inl (Or.inl h)
      · exact Or.inl (Or.inr hxc)
      · exact Or.inr ⟨x, hx, hxc⟩

lemma listMin_lt_iff (l : List ℚ) (hl : l ≠ []) (c : ℚ) :
    listMin l < c ↔ ∃ x ∈ l, x < c := by
  cases l with
  | nil => exact absurd rfl hl
  | cons x xs =>
    rw [show listMin (x :: xs) = xs.foldl min x from rfl, foldl_min_lt_iff]
    simp only [List.mem_cons]
    constructor
    · rintro (h | ⟨y, hy, hyc⟩)
      · exact ⟨x, Or.inl rfl, h⟩
      · exact ⟨y, Or.inr hy, hyc⟩
    · rintro ⟨y, (rfl | hy), hyc⟩
      · exact Or.inl hyc
      · exact Or.inr ⟨y, hy, hyc⟩

/-- C5: the overall system status is VIOLATION exactly when the status of
at least one link is VIOLATION; with every link OK the overall status
is OK. -/
theorem overall_status_violation_iff :
    ∀ (tables : List (List Row)) (minV maxI : ℚ),
      tables ≠ [] → (∀ t ∈ tables, t ≠ []) →
      (overall_status tables minV maxI = Status.VIOLATION ↔
        ∃ t ∈ tables, link_status t minV maxI = Status.VIOLATION) := by
  intro tables minV maxI hne hall
  have hany : ((tables.any fun t => decide (link_current t > maxI)) = true) ↔
      ∃ t ∈ tables, link_current t > maxI := by
    simp [List.any_eq_true]
  have hov : overall_status tables minV maxI = Status.VIOLATION ↔
      listMin ((tables.flatten).map fun r => r.remaining) < minV ∨
        ∃ t ∈ tables, link_current t > maxI := by
    unfold overall_status
    rw [← hany]
    by_cases h1 : listMin ((tables.flatten).map fun r => r.remaining) < minV <;>
      by_cases h2 : (tables.any fun t => decide (link_current t > maxI)) = true <;>
        simp [h1, h2]
  obtain ⟨t0, ht0⟩ := List.exists_mem_of_ne_nil tables hne
  obtain ⟨r0, hr0⟩ := List.exists_mem_of_ne_nil t0 (hall t0 ht0)
  have hr0f : r0 ∈ tables.flatten := List.mem_flatten.mpr ⟨t0, ht0, hr0⟩
  have hflatmap : ((tables.flatten).map fun r => r.remaining) ≠ [] := by
    intro hc
    rw [List.map_eq_nil_iff] at hc
    rw [hc] at hr0f
    exact absurd hr0f (List.not_mem_nil r0)
  have hvolt : listMin ((tables.flatten).map fun r => r.remaining) < minV ↔
      ∃ t ∈ tables, link_min_voltage t < minV := by
    rw [listMin_lt_iff _ hflatmap]
    constructor
    · rintro ⟨x, hx, hxc⟩
      obtain ⟨r, hr, rfl⟩ := List.mem_map.mp hx
      obtain ⟨t, ht, hrt⟩ := List.mem_flatten.mp hr
      refine ⟨t, ht, ?_⟩
      rw [link_min_voltage, listMin_lt_iff _ (by simpa [List.map_eq_nil_iff] using hall t ht)]
      exact ⟨r.remaining, List.mem_map.mpr ⟨r, hrt, rfl⟩, hxc⟩
    · rintro ⟨t, ht, hmin⟩
      rw [link_min_voltage,
        listMin_lt_iff _ (by simpa [List.map_eq_nil_iff] using hall t ht)] at hmin
      obtain ⟨x, hx, hxc⟩ := hmin
      obtain ⟨r, hr, rfl⟩ := List.mem_map.mp hx
      exact ⟨r.remaining,
        List.mem_map.mpr ⟨r, List.mem_flatten.mpr ⟨t, ht, hr⟩, rfl⟩, hxc⟩
  rw [hov, hvolt]
  constructor
  · rintro (⟨t, ht, hm⟩ | ⟨t, ht, hc⟩)
    · exact ⟨t, ht, (link_status_eq_violation_iff t minV maxI).mpr (Or.inl hm)⟩
    · exact ⟨t, ht, (link_status_eq_violation_iff t minV maxI).mpr (Or.inr hc)⟩
  · rintro ⟨t, ht, hv⟩
    rcases (link_status_eq_violation_iff t minV maxI).mp hv with hm | hc
    · exact Or.inl ⟨t, ht, hm⟩
    · exact Or.inr ⟨t, ht, hc⟩

theorem overall_status_violation_iff_witness :
    overall_status [[sample_row]] 36 10 = Status.VIOLATION ↔
      ∃ t ∈ [[sample_row]], link_status t 36 10 = Status.VIOLATION :=
  overall_status_violation_iff [[sample_row]] 36 10 (by simp) (by simp)
/-! ### Topology builder (C6) -/

lemma anodeLoop_closed :
    ∀ (k r : ℕ), 8 * k < r → r ≤ 8 * (k + 1) →
      anodeLoop (k + 1) r = List.replicate k 8 ++ [r - 8 * k] := by
  intro k
  induction k with
  | zero =>
    intro r h1 h2
    have hmin : min ANODES_PER_HUB r = r := by
      simp only [ANODES_PER_HUB]
      omega
    simp [anodeLoop, hmin]
  | succ k ih =>
    intro r h1 h2
    have hmin : min ANODES_PER_HUB r = 8 := by
      simp only [ANODES_PER_HUB]
      omega
    rw [show anodeLoop (k + 1 + 1) r =
        min ANODES_PER_HUB r :: anodeLoop (k + 1) (r - min ANODES_PER_HUB r) from rfl]
    rw [hmin, ih (r - 8) (by omega) (by omega), List.replicate_succ,
      show r - 8 - 8 * k = r - 8 * (k + 1) from by omega]
    rfl

lemma num_hubs_bounds (total : ℕ) (h : 1 ≤ total) :
    8 * (num_hubs total - 1) < total ∧ total ≤ 8 * num_hubs total ∧
      1 ≤ num_hubs total := by
  unfold num_hubs ANODES_PER_HUB
  omega

lemma anode_counts_closed (total : ℕ) (h : 1 ≤ total) :
    anode_counts total =
      List.replicate (num_hubs total - 1) 8 ++
        [total - 8 * (num_hubs total - 1)] := by
  obtain ⟨h1, h2, h3⟩ := num_hubs_bounds total h
  have hcl := anodeLoop_closed (num_hubs total - 1) total h1 (by omega)
  rw [show num_hubs total - 1 + 1 = num_hubs total from by omega] at hcl
  rw [anode_counts, hcl]

/-- C6: for any total number of anodes `≥ 1` with per-hub capacity 8, the
hub count is `ceil(total / 8)`, every hub except possibly the last gets
exactly 8 anodes, the last gets the remainder (between 1 and 8), and the
counts sum to the total; in particular 24 anodes give 3 full hubs and
20 anodes give 3 hubs with 4 anodes on the last. -/
theorem anode_distribution_spec :
    (∀ total : ℕ, 1 ≤ total →
      ((num_hubs total : ℤ) = ⌈(total : ℚ) / (ANODES_PER_HUB : ℚ)⌉ ∧
        (anode_counts total).length = num_hubs total ∧
        (∀ x ∈ (anode_counts total).dropLast, x = ANODES_PER_HUB) ∧
        (anode_counts total).getLast? =
          some (total - ANODES_PER_HUB * (num_hubs total - 1)) ∧
        1 ≤ total - ANODES_PER_HUB * (num_hubs total - 1) ∧
        total - ANODES_PER_HUB * (num_hubs total - 1) ≤ ANODES_PER_HUB ∧
        (anode_counts total).sum = total)) ∧
    num_hubs 24 = 3 ∧ anode_counts 24 = [8, 8, 8] ∧
    num_hubs 20 = 3 ∧ anode_counts 20 = [8, 8, 4] := by
  constructor
  · intro total h
    obtain ⟨h1, h2, h3⟩ := num_hubs_bounds total h
    have hA : (ANODES_PER_HUB : ℚ) = 8 := by norm_num [ANODES_PER_HUB]
    have hAn : ANODES_PER_HUB = 8 := rfl
    have hcl := anode_counts_closed total h
    have hc1 : (8 : ℚ) * ((num_hubs total : ℚ) - 1) < (total : ℚ) := by
      have hcast : ((8 * (num_hubs total - 1) : ℕ) : ℚ) < ((total : ℕ) : ℚ) := by
        exact_mod_cast h1
      push_cast [Nat.cast_sub h3] at hcast
      linarith
    have hc2 : ((total : ℕ) : ℚ) ≤ 8 * ((num_hubs total : ℕ) : ℚ) := by
      exact_mod_cast h2
    refine ⟨?_, ?_, ?_, ?_, ?_, ?_, ?_⟩
    · rw [hA, eq_comm, Int.ceil_eq_iff]
      constructor
      · push_cast
        rw [sub_lt_iff_lt_add]
        rw [show (total : ℚ) / 8 + 1 = ((total : ℚ) + 8) / 8 from by ring]
        rw [lt_div_iff₀ (by norm_num : (0 : ℚ) < 8)]
        linarith
      · push_cast
        rw [div_le_iff₀ (by norm_num : (0 : ℚ) < 8)]
        linarith
    · rw [hcl]
      simp only [List.length_append, List.length_replicate, List.length_cons,
        List.length_nil]
      omega
    · rw [hcl, hAn, List.dropLast_concat]
      intro x hx
      exact List.eq_of_mem_replicate hx
    · rw [hcl, hAn, List.getLast?_concat]
    · rw [hAn]; omega
    · rw [hAn]; omega
    · rw [hcl]
      simp only [List.sum_append, List.sum_replicate, smul_eq_mul, List.sum_cons,
        List.sum_nil]
      omega
  · refine ⟨by decide, by decide, by decide, by decide⟩

theorem anode_distribution_spec_witness :
    (num_hubs 24 : ℤ) = ⌈((24 : ℕ) : ℚ) / (ANODES_PER_HUB : ℚ)⌉ ∧
      (anode_counts 24).length = num_hubs 24 ∧
      (∀ x ∈ (anode_counts 24).dropLast, x = ANODES_PER_HUB) ∧
      (anode_counts 24).getLast? = some (24 - ANODES_PER_HUB * (num_hubs 24 - 1)) ∧
      1 ≤ 24 - ANODES_PER_HUB * (num_hubs 24 - 1) ∧
      24 - ANODES_PER_HUB * (num_hubs 24 - 1) ≤ ANODES_PER_HUB ∧
      (anode_counts 24).sum = 24 :=
  anode_distribution_spec.1 24 (by decide)
